import Mathlib

/-!
Verification of the ngx-rocket CLI (cli/index.js) against its design
specification. The definitions below are a shallow embedding of the
functions of cli/index.js; filesystem access, the manifest reader and the
environment are passed in as explicit parameters. Theorems about the
embedding settle the specification claims.
-/

namespace NgxRocketCli

/-! Section 1: path splitting and joining, as used by _findPackageJson
(cli/index.js lines 207 to 225). -/

/-- Splitting of a path string on the separator class, mirroring the
JavaScript call basePath.split on the regular expression class of the
forward slash and the backslash: every separator character ends the
current segment, empty segments are kept, and the empty string splits to
a single empty segment. -/
def splitPathAux : List Char → List Char → List String
  | [], cur => [String.mk cur.reverse]
  | c :: rest, cur =>
    if c == '/' || c == '\\' then String.mk cur.reverse :: splitPathAux rest []
    else splitPathAux rest (c :: cur)

/-- Character level model of basePath.split over the separator class. -/
def splitPath (s : String) : List String := splitPathAux s.data []

/-- Collapsing of repeated separator characters, the normalization step of
path.join relevant here. -/
def collapseSlashes (s : String) : String :=
  String.mk (s.data.foldr
    (fun c acc => if c == '/' && acc.head? == some '/' then acc else c :: acc) [])

/-- Model of path.join of Node on posix separators: empty parts are
dropped, the remaining parts are joined with the separator, repeated
separators are collapsed, and an empty join yields the dot path. Segment
normalization of dot components is not modelled; no probed component in
this development introduces them. -/
def pathJoin (parts : List String) : String :=
  let joined := String.intercalate "/" (parts.filter (fun p => !p.isEmpty))
  if joined.isEmpty then "." else collapseSlashes joined

/-- Root fix of _findPackageJson (cli/index.js lines 218 to 222): when the
split component list is nonempty and its first component is the empty
string, that component is replaced by the path separator, so that an
absolute path keeps its leading separator. -/
def fixRoot : List String → List String
  | [] => []
  | c :: rest => if c.length = 0 then "/" :: rest else c :: rest

/-- Component list derived from a base path by _findPackageJson: split on
the separator class, then the root fix. -/
def pathComponents (basePath : String) : List String :=
  fixRoot (splitPath basePath)

/-- Manifest file path probed for a component list: path.join of the
components gives the directory, and the manifest name is joined onto it
(cli/index.js lines 213 to 214). -/
def packageFileOf (components : List String) : String :=
  pathJoin [pathJoin components, "package.json"]

/-- Inner find closure of _findPackageJson (cli/index.js lines 208 to
216), applied to the first k components of the fixed component list. The
source recursion on components.slice dropping the last entry only ever
visits prefixes of the original list, so it is represented by the length
k of the prefix still under consideration: k = 0 is the empty component
list returning null, and otherwise the manifest path for the prefix is
probed and on failure the recursion continues with one component fewer. -/
def findPrefix (fsExists : String → Bool) (comps : List String) : Nat → Option String
  | 0 => none
  | k + 1 =>
    let packageFile := packageFileOf (comps.take (k + 1))
    if fsExists packageFile then some packageFile
    else findPrefix fsExists comps k

/-- Embedding of _findPackageJson (cli/index.js lines 207 to 225):
existence checks are supplied by the fsExists parameter. -/
def findPackageJson (fsExists : String → Bool) (basePath : String) : Option String :=
  let comps := pathComponents basePath
  findPrefix fsExists comps comps.length

/-- Instrumented variant of findPrefix returning the list of manifest
paths probed by fs.existsSync, in probe order, with the same early exit
on the first hit. -/
def findProbes (fsExists : String → Bool) (comps : List String) : Nat → List String
  | 0 => []
  | k + 1 =>
    let packageFile := packageFileOf (comps.take (k + 1))
    if fsExists packageFile then [packageFile]
    else packageFile :: findProbes fsExists comps k

/-- Instrumented variant of findPrefix counting the calls of the find
closure, the base call included. -/
def findCalls (fsExists : String → Bool) (comps : List String) : Nat → Nat
  | 0 => 1
  | k + 1 =>
    if fsExists (packageFileOf (comps.take (k + 1))) then 1
    else 1 + findCalls fsExists comps k

/-! Section 2: JavaScript values, truthiness and the package manager
resolver (cli/index.js lines 227 to 241 and the minimist configuration in
lines 51 to 57). -/

/-- JavaScript values relevant to the embedded option and manifest
fields: booleans, strings, null and undefined. -/
inductive JsVal where
  | vBool : Bool → JsVal
  | vStr : String → JsVal
  | vNull : JsVal
  | vUndef : JsVal
deriving DecidableEq

/-- JavaScript truthiness on the embedded values: a boolean is itself, a
string is truthy when nonempty, null and undefined are falsy. -/
def jsTruthy : JsVal → Bool
  | JsVal.vBool b => b
  | JsVal.vStr s => !s.isEmpty
  | JsVal.vNull => false
  | JsVal.vUndef => false

/-- JavaScript strict equality of an embedded value with a string
literal: only a string value can be strictly equal to a string. -/
def jsIsStr (v : JsVal) (t : String) : Bool :=
  match v with
  | JsVal.vStr s => s == t
  | _ => false

/-- Outcome of reading the packageManager property from the project
manifest .yo-rc.json inside the try block of _packageManager: the file
can be missing, malformed, parseable without the nested property path, or
carry a string value. -/
inductive ManifestRead where
  | missing : ManifestRead
  | malformed : ManifestRead
  | fieldMissing : ManifestRead
  | value : String → ManifestRead
deriving DecidableEq

/-- JavaScript short circuit or over an optional string and a default:
an absent or empty string falls through to the default, matching the
falsiness of the empty string. -/
def orTruthy : Option String → String → String
  | some s, d => if s.isEmpty then d else s
  | none, d => d

/-- Embedding of _packageManager (cli/index.js lines 227 to 241). The
flag parameter is the parsed value of the packageManager option; when it
is truthy the result is yarn exactly when the value is strictly equal to
the string yarn and npm otherwise. With a falsy flag, the try block
around the manifest read maps every failure mode, missing file, malformed
content or missing property path, to a null value, and the final
expression chains the manifest value, the environment variable
NGX_PACKAGE_MANAGER and the literal npm by JavaScript short circuit or. -/
def packageManagerOf (flag : JsVal) (rc : ManifestRead) (envPm : Option String) : String :=
  if jsTruthy flag then
    if jsIsStr flag "yarn" then "yarn" else "npm"
  else
    let pm : Option String :=
      match rc with
      | ManifestRead.value s => some s
      | _ => none
    orTruthy pm (orTruthy envPm "npm")

/-- Parsed value of the packageManager command line option. The
constructor (cli/index.js lines 51 to 57) lists packageManager in the
boolean option list of minimist, so the parsed value is always a
JavaScript boolean: true when the flag occurs on the command line, in
which case a following word such as yarn is not consumed as its value,
and false when the flag is absent. -/
def optionsPackageManager (flagPresent : Bool) : JsVal := JsVal.vBool flagPresent

/-! Section 3: add-on discovery (cli/index.js lines 190 to 205). -/

/-- Marker keyword identifying add-on packages (cli/index.js line 18). -/
def addonKey : String := "ngx-rocket-addon"

/-- Metadata of an enumerated generator module: the resolved filesystem
path of its entry file and its generator identifier string, as returned
by the generator runtime enumeration. -/
structure GeneratorMeta where
  resolved : String
  nspace : String
deriving DecidableEq

/-- Parsed package manifest as far as discovery reads it: the keyword
list, which may be absent from the file. -/
structure PackageManifest where
  keywords : Option (List String)
deriving DecidableEq

/-- Suffix normalization of a generator identifier (cli/index.js line
201): the replace with the anchored pattern removes one trailing app
suffix after a colon when present and otherwise leaves the string
unchanged. -/
def stripAppSuffix (s : String) : String :=
  if [':', 'a', 'p', 'p'].isSuffixOf s.data then String.mk (s.data.take (s.data.length - 4))
  else s

/-- Filter step of _findAddons for one generator module (cli/index.js
lines 196 to 200): the manifest path is resolved by findPackageJson; a
null result makes the subsequent require call throw, and an unreadable or
unparsable manifest makes require throw as well, both modelled as an
error. On success the keyword list, defaulted to empty when the property
is absent, is tested for the marker keyword. -/
def addonFilterStep (fsExists : String → Bool)
    (readManifest : String → Option PackageManifest) (g : GeneratorMeta) : Except Unit Bool :=
  match findPackageJson fsExists g.resolved with
  | none => Except.error ()
  | some p =>
    match readManifest p with
    | none => Except.error ()
    | some m => Except.ok ((m.keywords.getD []).contains addonKey)

/-- Filter pass of _findAddons over the enumerated modules, in order,
keeping the modules whose step returns true; an error in any step aborts
the whole pass, because the exception thrown inside the filter callback
propagates out of the enumeration. -/
def filterModules (fsExists : String → Bool)
    (readManifest : String → Option PackageManifest) :
    List GeneratorMeta → Except Unit (List GeneratorMeta)
  | [] => Except.ok []
  | g :: rest => do
    let keep ← addonFilterStep fsExists readManifest g
    let others ← filterModules fsExists readManifest rest
    pure (if keep then g :: others else others)

/-- Embedding of _findAddons (cli/index.js lines 190 to 205): the kept
modules are mapped to their normalized identifiers. -/
def findAddons (fsExists : String → Bool)
    (readManifest : String → Option PackageManifest)
    (gens : List GeneratorMeta) : Except Unit (List String) :=
  (filterModules fsExists readManifest gens).map
    (fun kept => kept.map (fun g => stripAppSuffix g.nspace))

/-! Section 4: the disabled add-on store and the generate command
(cli/index.js lines 101 to 141 and 143 to 166). -/

/-- Truthiness of the property lookup disabled of addon on the persisted
disabled map, modelled as an association list with boolean values: an
absent key is undefined and therefore falsy, a present key yields its
boolean value. -/
def disabledTruthy (disabled : List (String × Bool)) (a : String) : Bool :=
  match List.lookup a disabled with
  | some b => b
  | none => false

/-- Filter of cli/index.js line 123: the discovered add-ons whose
disabled map lookup is falsy. -/
def enabledAddons (discovered : List String) (disabled : List (String × Bool)) : List String :=
  discovered.filter (fun a => !disabledTruthy disabled a)

/-- Outcome of reading .yo-rc.json in the update branch of generate
(cli/index.js lines 104 to 109): the file may be missing, JSON.parse may
throw on malformed content, or parsing succeeds and the lodash get of the
nested isAddon property yields a JavaScript value, undefined when the
property path is absent. -/
inductive YoRcRead where
  | missing : YoRcRead
  | malformed : YoRcRead
  | parsed : JsVal → YoRcRead
deriving DecidableEq

/-- Observable outcome of the generate command: a fatal exit with a
message and an exit code, an uncaught parse failure, a run of the add-on
generator with its argument list, update mode and package manager, or a
run of the app generator additionally carrying the addons option string. -/
inductive GenerateResult where
  | exited : String → Nat → GenerateResult
  | parseFailure : GenerateResult
  | ranAddon : List String → Bool → String → GenerateResult
  | ranApp : List String → Bool → String → String → GenerateResult
deriving DecidableEq

/-- Message printed by generate when update finds no project manifest
(cli/index.js line 108); the terminal color codes added by chalk around
the command name are not modelled. -/
def noAppMessage : String := "No existing app found, use ngx new instead"

/-- Branch of generate after the add-on flag is settled (cli/index.js
lines 111 to 140): with the flag set, the addon generator is run on the
arguments with the flag spellings filtered out; otherwise the app
generator is run with the addons option, the space joined list of the
discovered add-ons whose disabled lookup is falsy. -/
def runBranch (update : Bool) (args : List String) (addon : Bool) (pm : String)
    (discovered : List String) (disabled : List (String × Bool)) : GenerateResult :=
  if addon then
    GenerateResult.ranAddon (args.filter (fun arg => arg != "--addon" && arg != "-a")) update pm
  else
    GenerateResult.ranApp args update pm
      (String.intercalate " " (enabledAddons discovered disabled))

/-- Embedding of generate (cli/index.js lines 101 to 141). For a new run
the add-on flag is the parsed command line flag. For an update run the
project manifest decides: a missing manifest exits with code 1, a
malformed manifest propagates the JSON.parse failure, and a parsed
manifest overrides the command line flag with the truthiness of its
isAddon property. The pm parameter is the resolved package manager value
and the discovered and disabled parameters are the discovery result and
the persisted disabled map read in the non add-on branch. -/
def generate (update : Bool) (args : List String) (addonFlag : Bool) (yoRc : YoRcRead)
    (pm : String) (discovered : List String) (disabled : List (String × Bool)) : GenerateResult :=
  if update then
    match yoRc with
    | YoRcRead.missing => GenerateResult.exited noAppMessage 1
    | YoRcRead.malformed => GenerateResult.parseFailure
    | YoRcRead.parsed isAddon => runBranch update args (jsTruthy isAddon) pm discovered disabled
  else
    runBranch update args addonFlag pm discovered disabled

/-- Predicate: the generate outcome invoked the generator runtime. -/
def invokesRuntime : GenerateResult → Bool
  | GenerateResult.ranAddon _ _ _ => true
  | GenerateResult.ranApp _ _ _ _ => true
  | _ => false

/-- Predicate: the generate outcome surfaced a failure to the user, as a
printed error with a process exit or as an uncaught exception. -/
def surfacesFailure : GenerateResult → Bool
  | GenerateResult.exited _ _ => true
  | GenerateResult.parseFailure => true
  | _ => false

/-- Predicate: the generate outcome is a process exit with a nonzero
code. -/
def exitsNonZero : GenerateResult → Bool
  | GenerateResult.exited _ c => c != 0
  | _ => false

/-- Disabled map persisted by configure (cli/index.js lines 156 to 164):
the discovered add-ons not contained in the user selection, each mapped
to true by the reduce over an initially empty object. -/
def configureDisabled (addons : List String) (selected : List String) : List (String × Bool) :=
  (addons.filter (fun a => !selected.contains a)).map (fun a => (a, true))

/-! Section 5: helper lemmas shared by the claim theorems. -/

theorem findPrefix_none_of_all_false (fsExists : String → Bool)
    (hfs : ∀ p, fsExists p = false) (comps : List String) :
    ∀ k, findPrefix fsExists comps k = none := by
  intro k
  induction k with
  | zero => rfl
  | succ k ih => simp [findPrefix, hfs, ih]

theorem findProbes_length_le (fsExists : String → Bool) (comps : List String) :
    ∀ k, (findProbes fsExists comps k).length ≤ k := by
  intro k
  induction k with
  | zero => simp [findProbes]
  | succ k ih =>
    simp only [findProbes]
    split
    · simp
    · simpa using ih

theorem findCalls_le (fsExists : String → Bool) (comps : List String) :
    ∀ k, findCalls fsExists comps k ≤ k + 1 := by
  intro k
  induction k with
  | zero => simp [findCalls]
  | succ k ih =>
    simp only [findCalls]
    split
    · omega
    · omega

theorem disabledTruthy_iff (disabled : List (String × Bool)) (a : String) :
    disabledTruthy disabled a = true ↔ List.lookup a disabled = some true := by
  unfold disabledTruthy
  cases h : List.lookup a disabled with
  | none => simp
  | some b => cases b <;> simp

/-! Section 6: the claim theorems. -/

/-- C5: for every base path with N components, manifest resolution probes
at most N manifest paths, returns none rather than an error once every
component has been exhausted, and on the absolute path /a/b/c with no
manifest anywhere the probes run down to the filesystem root itself, the
last probed path being the manifest name directly under the root
separator. -/
theorem c5_manifest_resolution_bounds (fsExists : String → Bool) (basePath : String) :
    (findProbes fsExists (pathComponents basePath) (pathComponents basePath).length).length
        ≤ (pathComponents basePath).length
    ∧ ((∀ p, fsExists p = false) → findPackageJson fsExists basePath = none)
    ∧ findProbes (fun _ => false) (pathComponents "/a/b/c") (pathComponents "/a/b/c").length
        = ["/a/b/c/package.json", "/a/b/package.json", "/a/package.json", "/package.json"] := by
  refine ⟨findProbes_length_le fsExists (pathComponents basePath) _, ?_, by decide⟩
  intro hfs
  exact findPrefix_none_of_all_false fsExists hfs (pathComponents basePath) _

/-- Witness for C5 at the concrete input of the claim: resolving /a/b/c
when no manifest exists anywhere returns none. -/
theorem c5_manifest_resolution_bounds_witness :
    findPackageJson (fun _ => false) "/a/b/c" = none :=
  (c5_manifest_resolution_bounds (fun _ => false) "/a/b/c").2.1 (fun _ => rfl)

/-- C10: the upward walk of findPackageJson is total, the embedded find
recursion is bounded by the component count, making at most N plus one
calls of the find closure for a base path with N components, and the
result is always either some manifest path or none. -/
theorem c10_walk_terminates_with_call_bound (fsExists : String → Bool) (basePath : String) :
    findCalls fsExists (pathComponents basePath) (pathComponents basePath).length
        ≤ (pathComponents basePath).length + 1
    ∧ ((∃ p, findPackageJson fsExists basePath = some p)
        ∨ findPackageJson fsExists basePath = none) := by
  refine ⟨findCalls_le fsExists (pathComponents basePath) _, ?_⟩
  cases h : findPackageJson fsExists basePath with
  | none => exact Or.inr rfl
  | some p => exact Or.inl ⟨p, rfl⟩

/-- C7: running update in a working directory with no project manifest
exits with the no app message and code 1, a nonzero status, and the
generator runtime is never invoked. -/
theorem c7_update_without_manifest_exits (args : List String) (addonFlag : Bool)
    (pm : String) (discovered : List String) (disabled : List (String × Bool)) :
    generate true args addonFlag YoRcRead.missing pm discovered disabled
        = GenerateResult.exited noAppMessage 1
    ∧ exitsNonZero (generate true args addonFlag YoRcRead.missing pm discovered disabled) = true
    ∧ invokesRuntime (generate true args addonFlag YoRcRead.missing pm discovered disabled)
        = false :=
  ⟨rfl, rfl, rfl⟩

/-- C2: the code slip behind the claim. The constructor declares the
packageManager option in the boolean list of minimist, so the parsed
option value is the boolean true whenever the flag occurs on the command
line and the word yarn following the flag is never consumed as its value.
The resolver then compares that boolean against the string yarn by strict
equality, which fails, and returns npm for every project record and
environment value, contradicting the claimed resolution of the flag value
yarn to yarn and the usage text of the flag itself. -/
theorem c2_boolean_flag_forces_npm (rc : ManifestRead) (envPm : Option String) :
    packageManagerOf (optionsPackageManager true) rc envPm = "npm"
    ∧ packageManagerOf (optionsPackageManager true) rc envPm ≠ "yarn" := by
  refine ⟨rfl, ?_⟩
  intro h
  have h2 : ("npm" : String) = "yarn" := h
  exact absurd h2 (by decide)

/-- C8 counterexample: with no flag in effect and a project record value
pnpm, the resolver returns pnpm verbatim, which is neither yarn nor npm,
so the claim that every combination resolves to one of the two strings is
false. -/
theorem c8_counterexample :
    packageManagerOf (JsVal.vBool false) (ManifestRead.value "pnpm") none = "pnpm"
    ∧ packageManagerOf (JsVal.vBool false) (ManifestRead.value "pnpm") none ≠ "yarn"
    ∧ packageManagerOf (JsVal.vBool false) (ManifestRead.value "pnpm") none ≠ "npm" := by
  refine ⟨rfl, ?_, ?_⟩ <;> intro h
  · exact absurd (show ("pnpm" : String) = "yarn" from h) (by decide)
  · exact absurd (show ("pnpm" : String) = "npm" from h) (by decide)

/-- C8 amended: the resolver returns exactly yarn or npm whenever the
flag is truthy, and otherwise whenever every present project record or
environment value is yarn, npm or the empty string; outside those cases
the record or environment value is returned verbatim. -/
theorem c8_amended_resolver_range (flag : JsVal) (rc : ManifestRead) (envPm : Option String)
    (hrc : ∀ s, rc = ManifestRead.value s → s = "yarn" ∨ s = "npm" ∨ s = "")
    (henv : ∀ s, envPm = some s → s = "yarn" ∨ s = "npm" ∨ s = "") :
    packageManagerOf flag rc envPm = "yarn" ∨ packageManagerOf flag rc envPm = "npm" := by
  unfold packageManagerOf
  by_cases hf : jsTruthy flag = true
  · rw [if_pos hf]
    by_cases hy : jsIsStr flag "yarn" = true
    · rw [if_pos hy]
      exact Or.inl rfl
    · rw [if_neg hy]
      exact Or.inr rfl
  · rw [if_neg hf]
    have henv2 : orTruthy envPm "npm" = "yarn" ∨ orTruthy envPm "npm" = "npm" := by
      cases envPm with
      | none => exact Or.inr rfl
      | some s =>
        rcases henv s rfl with h | h | h <;> subst h
        · exact Or.inl rfl
        · exact Or.inr rfl
        · exact Or.inr rfl
    cases rc with
    | value s =>
      rcases hrc s rfl with h | h | h <;> subst h
      · exact Or.inl rfl
      · exact Or.inr rfl
      · exact henv2
    | missing => exact henv2
    | malformed => exact henv2
    | fieldMissing => exact henv2

/-- Witness for C8 amended: no flag, no project record, environment value
yarn resolves to yarn or npm. -/
theorem c8_amended_resolver_range_witness :
    packageManagerOf (JsVal.vBool false) ManifestRead.missing (some "yarn") = "yarn"
    ∨ packageManagerOf (JsVal.vBool false) ManifestRead.missing (some "yarn") = "npm" :=
  c8_amended_resolver_range (JsVal.vBool false) ManifestRead.missing (some "yarn")
    (fun _ h => by cases h) (fun s h => by injection h with h2; exact Or.inl h2.symm)

/-- C4 counterexample: an update run whose project manifest is present
but malformed surfaces the JSON parse failure instead of silently
treating the manifest as absent, so the claim that a malformed manifest
is never surfaced during add-on flag recovery is false. -/
theorem c4_counterexample :
    surfacesFailure (generate true [] false YoRcRead.malformed "npm" [] []) = true
    ∧ generate true [] false YoRcRead.malformed "npm" [] [] = GenerateResult.parseFailure :=
  ⟨rfl, rfl⟩

/-- C4 amended: package manager resolution silently treats a missing,
malformed or field-missing project manifest as absent and falls through
to the environment chain; add-on flag recovery treats only a parsed
manifest without the isAddon property as a plain app, while a missing
manifest is a fatal usage exit and a malformed manifest propagates the
parse failure. -/
theorem c4_amended_manifest_failures (flag : JsVal) (hflag : jsTruthy flag = false)
    (envPm : Option String) (args : List String) (addonFlag : Bool) (pm : String)
    (discovered : List String) (disabled : List (String × Bool)) :
    (packageManagerOf flag ManifestRead.missing envPm = orTruthy envPm "npm"
      ∧ packageManagerOf flag ManifestRead.malformed envPm = orTruthy envPm "npm"
      ∧ packageManagerOf flag ManifestRead.fieldMissing envPm = orTruthy envPm "npm")
    ∧ generate true args addonFlag (YoRcRead.parsed JsVal.vUndef) pm discovered disabled
        = runBranch true args false pm discovered disabled
    ∧ generate true args addonFlag YoRcRead.missing pm discovered disabled
        = GenerateResult.exited noAppMessage 1
    ∧ generate true args addonFlag YoRcRead.malformed pm discovered disabled
        = GenerateResult.parseFailure := by
  have hneg : ¬ jsTruthy flag = true := by rw [hflag]; exact Bool.false_ne_true
  refine ⟨⟨?_, ?_, ?_⟩, rfl, rfl, rfl⟩ <;>
    · unfold packageManagerOf
      rw [if_neg hneg]
      rfl

/-- Witness for C4 amended at a concrete input: with a falsy flag and a
missing manifest the resolver falls through to the environment chain. -/
theorem c4_amended_manifest_failures_witness :
    packageManagerOf (JsVal.vBool false) ManifestRead.missing (some "yarn")
        = orTruthy (some "yarn") "npm" :=
  (c4_amended_manifest_failures (JsVal.vBool false) rfl (some "yarn") [] false "npm" []
    []).1.1

/-- C1: for a new or update run without the add-on flag in effect, the
app generator receives as its addons option exactly the space joined list
of the discovered add-ons whose lookup in the persisted disabled map is
not true; membership in that list holds exactly for the discovered
identifiers not mapped to true, and an identifier absent from the map is
always included when discovered. -/
theorem c1_addons_passed_are_discovered_minus_disabled (args : List String) (pm : String)
    (discovered : List String) (disabled : List (String × Bool)) (addonFlag : Bool)
    (v : JsVal) (hv : jsTruthy v = false) (a : String) :
    generate false args false (YoRcRead.parsed v) pm discovered disabled
        = GenerateResult.ranApp args false pm
            (String.intercalate " " (enabledAddons discovered disabled))
    ∧ generate true args addonFlag (YoRcRead.parsed v) pm discovered disabled
        = GenerateResult.ranApp args true pm
            (String.intercalate " " (enabledAddons discovered disabled))
    ∧ (a ∈ enabledAddons discovered disabled ↔
        a ∈ discovered ∧ ¬ List.lookup a disabled = some true)
    ∧ (List.lookup a disabled = none →
        (a ∈ enabledAddons discovered disabled ↔ a ∈ discovered)) := by
  have hmem : a ∈ enabledAddons discovered disabled ↔
      a ∈ discovered ∧ ¬ List.lookup a disabled = some true := by
    unfold enabledAddons
    rw [List.mem_filter]
    constructor
    · rintro ⟨h1, h2⟩
      refine ⟨h1, fun hl => ?_⟩
      rw [(disabledTruthy_iff disabled a).2 hl] at h2
      simp at h2
    · rintro ⟨h1, h2⟩
      refine ⟨h1, ?_⟩
      cases hd : disabledTruthy disabled a with
      | false => rfl
      | true => exact absurd ((disabledTruthy_iff disabled a).1 hd) h2
  refine ⟨?_, ?_, hmem, ?_⟩
  · simp [generate, runBranch]
  · simp [generate, runBranch, hv]
  · intro hnone
    rw [hmem]
    simp [hnone]

/-- Witness for C1 at concrete inputs: discovered add-ons a and b with b
mapped to true in the disabled map pass only a to the app generator. -/
theorem c1_addons_passed_witness :
    generate false ["x"] false (YoRcRead.parsed JsVal.vUndef) "npm" ["a", "b"] [("b", true)]
        = GenerateResult.ranApp ["x"] false "npm"
            (String.intercalate " " (enabledAddons ["a", "b"] [("b", true)])) :=
  (c1_addons_passed_are_discovered_minus_disabled ["x"] "npm" ["a", "b"] [("b", true)]
    false JsVal.vUndef rfl "a").1

/-- C9: with the add-on flag in effect, for a new run through the command
line flag and for an update run through a truthy isAddon property of the
parsed project manifest overriding any command line flag, generate runs
the add-on generator on the arguments with the flag spellings removed and
the resolved package manager, and the result is never a run of the app
generator, so no composed add-on set is ever passed. -/
theorem c9_addon_flag_bypasses_composition (args : List String) (yoRc : YoRcRead)
    (pm : String) (discovered : List String) (disabled : List (String × Bool))
    (addonFlag : Bool) (v : JsVal) (hv : jsTruthy v = true) :
    generate false args true yoRc pm discovered disabled
        = GenerateResult.ranAddon
            (args.filter (fun arg => arg != "--addon" && arg != "-a")) false pm
    ∧ generate true args addonFlag (YoRcRead.parsed v) pm discovered disabled
        = GenerateResult.ranAddon
            (args.filter (fun arg => arg != "--addon" && arg != "-a")) true pm
    ∧ (∀ as u p addons, generate false args true yoRc pm discovered disabled
          ≠ GenerateResult.ranApp as u p addons)
    ∧ (∀ as u p addons, generate true args addonFlag (YoRcRead.parsed v) pm discovered disabled
          ≠ GenerateResult.ranApp as u p addons) := by
  have h1 : generate false args true yoRc pm discovered disabled
      = GenerateResult.ranAddon
          (args.filter (fun arg => arg != "--addon" && arg != "-a")) false pm := by
    simp [generate, runBranch]
  have h2 : generate true args addonFlag (YoRcRead.parsed v) pm discovered disabled
      = GenerateResult.ranAddon
          (args.filter (fun arg => arg != "--addon" && arg != "-a")) true pm := by
    simp [generate, runBranch, hv]
  refine ⟨h1, h2, ?_, ?_⟩ <;> intro as u p addons <;> intro hcontra
  · rw [h1] at hcontra
    cases hcontra
  · rw [h2] at hcontra
    cases hcontra

/-- Witness for C9 at concrete inputs: an update run on a manifest with a
truthy isAddon property runs the add-on generator with the add-on flag
spelling removed from the arguments. -/
theorem c9_addon_flag_bypasses_composition_witness :
    generate true ["--addon", "x"] false (YoRcRead.parsed (JsVal.vBool true)) "npm" ["a"] []
        = GenerateResult.ranAddon
            (["--addon", "x"].filter (fun arg => arg != "--addon" && arg != "-a")) true
            "npm" :=
  (c9_addon_flag_bypasses_composition ["--addon", "x"] YoRcRead.missing "npm" ["a"] []
    false (JsVal.vBool true) rfl).2.1

theorem contains_true_iff_mem (xs : List String) (a : String) :
    xs.contains a = true ↔ a ∈ xs := List.elem_iff

theorem lookup_map_true (xs : List String) (a : String) :
    List.lookup a (xs.map (fun x => (x, true))) = if a ∈ xs then some true else none := by
  induction xs with
  | nil => rfl
  | cons x t ih =>
    by_cases hax : a = x
    · subst hax
      simp [List.lookup]
    · have hbeq : (a == x) = false := beq_eq_false_iff_ne.mpr hax
      simp [List.lookup, hbeq, hax, ih]

/-- C6: the disabled map persisted by configure maps an identifier to
true exactly when it was discovered and not selected, maps no selected
identifier at all, carries only the value true, and on the concrete run
of the claim with discovered A B C and selection A C persists exactly the
single pair of B and true. -/
theorem c6_configure_persists_complement (addons : List String) (selected : List String)
    (a : String) :
    (List.lookup a (configureDisabled addons selected) = some true
        ↔ a ∈ addons ∧ a ∉ selected)
    ∧ (a ∈ selected → List.lookup a (configureDisabled addons selected) = none)
    ∧ (∀ q ∈ configureDisabled addons selected, q.2 = true)
    ∧ configureDisabled ["A", "B", "C"] ["A", "C"] = [("B", true)] := by
  have hfilter : ∀ b, b ∈ addons.filter (fun x => !selected.contains x)
      ↔ b ∈ addons ∧ b ∉ selected := by
    intro b
    rw [List.mem_filter]
    constructor
    · rintro ⟨h1, h2⟩
      refine ⟨h1, fun hb => ?_⟩
      rw [(contains_true_iff_mem selected b).2 hb] at h2
      simp at h2
    · rintro ⟨h1, h2⟩
      refine ⟨h1, ?_⟩
      cases hc : selected.contains b with
      | false => rfl
      | true => exact absurd ((contains_true_iff_mem selected b).1 hc) h2
  have hlookup : List.lookup a (configureDisabled addons selected)
      = if a ∈ addons.filter (fun x => !selected.contains x) then some true else none :=
    lookup_map_true _ a
  refine ⟨?_, ?_, ?_, by decide⟩
  · rw [hlookup]
    by_cases hmem : a ∈ addons.filter (fun x => !selected.contains x)
    · rw [if_pos hmem]
      simp only [true_iff, eq_self_iff_true]
      exact ⟨((hfilter a).1 hmem).1, ((hfilter a).1 hmem).2⟩
    · rw [if_neg hmem]
      constructor
      · intro h
        cases h
      · intro h
        exact absurd ((hfilter a).2 h) hmem
  · intro hsel
    rw [hlookup, if_neg]
    intro hmem
    exact absurd hsel ((hfilter a).1 hmem).2
  · intro q hq
    unfold configureDisabled at hq
    rcases List.mem_map.mp hq with ⟨b, _, rfl⟩
    rfl

/-- Witness for C6 at the concrete run of the claim: the selected
identifier A is absent from the persisted disabled map. -/
theorem c6_configure_persists_complement_witness :
    List.lookup "A" (configureDisabled ["A", "B", "C"] ["A", "C"]) = none :=
  (c6_configure_persists_complement ["A", "B", "C"] ["A", "C"] "A").2.1 (by decide)

/-! Section 7: concrete discovery worlds used to settle the discovery
claim. The filesystem has readable manifests under the good and the plain
module roots only; the good manifest carries the marker keyword, the
plain one does not, and the bad module has no manifest anywhere above its
resolved path. -/

def cexFs : String → Bool :=
  fun p => p == "/good/package.json" || p == "/plain/package.json"

def cexRead : String → Option PackageManifest :=
  fun p =>
    if p == "/good/package.json" then some ⟨some ["ngx-rocket-addon"]⟩
    else if p == "/plain/package.json" then some ⟨some ["other"]⟩
    else none

def cexBad : GeneratorMeta := ⟨"/bad/mod", "bad:app"⟩

def cexGood : GeneratorMeta := ⟨"/good", "good:app"⟩

def cexPlain : GeneratorMeta := ⟨"/plain", "plain:app"⟩

/-- C3 counterexample: in the concrete discovery world, enumerating the
bad module together with the good one aborts the whole scan with an
error, while the good module alone is discovered, so a module with a
missing manifest is not skipped and does abort discovery, contradicting
the claim. -/
theorem c3_counterexample :
    findAddons cexFs cexRead [cexBad, cexGood] = Except.error ()
    ∧ findAddons cexFs cexRead [cexGood] = Except.ok ["good"] :=
  ⟨rfl, rfl⟩

theorem filterModules_error_of_mem (fsExists : String → Bool)
    (readManifest : String → Option PackageManifest) (gens : List GeneratorMeta)
    (g : GeneratorMeta) (hg : g ∈ gens)
    (hfail : addonFilterStep fsExists readManifest g = Except.error ()) :
    filterModules fsExists readManifest gens = Except.error () := by
  induction gens with
  | nil => cases hg
  | cons h0 t ih =>
    rcases List.mem_cons.mp hg with rfl | hmem
    · simp only [filterModules]
      rw [hfail]
      rfl
    · simp only [filterModules]
      cases hstep : addonFilterStep fsExists readManifest h0 with
      | error e =>
        cases e
        rfl
      | ok b =>
        rw [ih hmem]
        cases b <;> rfl

/-- C3 amended: a module whose filter step fails, because its manifest
cannot be found or cannot be read, aborts the whole discovery with an
error whenever it is among the enumerated modules; a module whose
manifest is readable but lacks the marker keyword is merely excluded and
discovery of the remaining modules continues unchanged. -/
theorem c3_amended_abort_or_skip (fsExists : String → Bool)
    (readManifest : String → Option PackageManifest) (gens : List GeneratorMeta)
    (g : GeneratorMeta) :
    (g ∈ gens → addonFilterStep fsExists readManifest g = Except.error () →
        findAddons fsExists readManifest gens = Except.error ())
    ∧ (addonFilterStep fsExists readManifest g = Except.ok false →
        findAddons fsExists readManifest (g :: gens) = findAddons fsExists readManifest gens) := by
  constructor
  · intro hg hfail
    unfold findAddons
    rw [filterModules_error_of_mem fsExists readManifest gens g hg hfail]
    rfl
  · intro hskip
    have hfm : filterModules fsExists readManifest (g :: gens)
        = filterModules fsExists readManifest gens := by
      simp only [filterModules]
      rw [hskip]
      cases h : filterModules fsExists readManifest gens with
      | error e => rfl
      | ok l => rfl
    unfold findAddons
    rw [hfm]

/-- Witness for C3 amended in the concrete discovery world: the bad
module aborts the scan even when listed after the good one, and the plain
module without the marker keyword is skipped with discovery continuing. -/
theorem c3_amended_abort_or_skip_witness :
    findAddons cexFs cexRead [cexGood, cexBad] = Except.error ()
    ∧ findAddons cexFs cexRead (cexPlain :: [cexGood])
        = findAddons cexFs cexRead [cexGood] :=
  ⟨(c3_amended_abort_or_skip cexFs cexRead [cexGood, cexBad] cexBad).1 (by decide) rfl,
   (c3_amended_abort_or_skip cexFs cexRead [cexGood] cexPlain).2 rfl⟩

end NgxRocketCli
